import Mathlib

/-!
Verification of the order-ledger ("blockchain") subsystem of the
The_Villain food-delivery application, as implemented in
`utils/blockchain.py` backed by the SQLite store of `utils/database.py`.

The embedding models:
* `hashlib.sha256(...).hexdigest()` as an executable SHA-256 over byte lists;
* Python `json` values (numbers restricted to integers) as a mutually
  inductive `Json` / `JArr` / `JObj` family, with `json.dumps(x, sort_keys=True,
  indent=2)` as `dumps`, plain `json.dumps(x)` as `dumpsPlain`, and
  `json.loads` as the executable parser `parseJson`;
* the `blockchain_records` table as a list of rows plus an autoincrement
  counter; a database connection that may fail to be obtained is an
  `Option Db`; `datetime.now()` and the column default `CURRENT_TIMESTAMP`
  are passed in as explicit string-valued clock parameters;
* the unbounded proof-of-work loop of `mine_block` with an explicit fuel
  parameter (the Python loop runs without bound; `none` models non-return
  within the given fuel).
-/

set_option maxRecDepth 100000
set_option maxHeartbeats 1000000

namespace Villain

/-! ### SHA-256 over byte lists, as `hashlib.sha256` -/

/-- Mask of the low 32 bits. -/
def mask32 : Nat := 4294967295

/-- Addition modulo 2^32. -/
def add32 (a b : Nat) : Nat := (a + b).land mask32

/-- Rotate a 32-bit word right by `n` bits. -/
def rotr (n x : Nat) : Nat :=
  ((x >>> n) ||| (x <<< (32 - n))).land mask32

/-- Logical right shift. -/
def shr (n x : Nat) : Nat := x >>> n

/-- Bitwise complement on 32 bits. -/
def bnot32 (x : Nat) : Nat := x.xor mask32

def bsig0 (x : Nat) : Nat := (rotr 2 x).xor ((rotr 13 x).xor (rotr 22 x))

def bsig1 (x : Nat) : Nat := (rotr 6 x).xor ((rotr 11 x).xor (rotr 25 x))

def ssig0 (x : Nat) : Nat := (rotr 7 x).xor ((rotr 18 x).xor (shr 3 x))

def ssig1 (x : Nat) : Nat := (rotr 17 x).xor ((rotr 19 x).xor (shr 10 x))

def ch (x y z : Nat) : Nat := (x.land y).xor ((bnot32 x).land z)

def maj (x y z : Nat) : Nat := (x.land y).xor ((x.land z).xor (y.land z))

/-- The 64 round constants of SHA-256, in decimal. -/
def K : List Nat :=
  [1116352408, 1899447441, 3049323471, 3921009573, 961987163, 1508970993,
   2453635748, 2870763221, 3624381080, 310598401, 607225278, 1426881987,
   1925078388, 2162078206, 2614888103, 3248222580, 3835390401, 4022224774,
   264347078, 604807628, 770255983, 1249150122, 1555081692, 1996064986,
   2554220882, 2821834349, 2952996808, 3210313671, 3336571891, 3584528711,
   113926993, 338241895, 666307205, 773529912, 1294757372, 1396182291,
   1695183700, 1986661051, 2177026350, 2456956037, 2730485921, 2820302411,
   3259730800, 3345764771, 3516065817, 3600352804, 4094571909, 275423344,
   430227734, 506948616, 659060556, 883997877, 958139571, 1322822218,
   1537002063, 1747873779, 1955562222, 2024104815, 2227730452, 2361852424,
   2428436474, 2756734187, 3204031479, 3329325298]

/-- The initial SHA-256 state words, in decimal. -/
def H0 : List Nat :=
  [1779033703, 3144134277, 1013904242, 2773480762,
   1359893119, 2600822924, 528734635, 1541459225]

/-- SHA-256 padding: append `0x80`, zero bytes, then the 8-byte big-endian
    bit length, reaching a multiple of 64 bytes. -/
def padMessage (msg : List Nat) : List Nat :=
  let len := msg.length
  let zeroCount := (55 + 64 - len % 64) % 64
  let bitLen := len * 8
  msg ++ [0x80] ++ List.replicate zeroCount 0 ++
    [(bitLen >>> 56).land 255, (bitLen >>> 48).land 255, (bitLen >>> 40).land 255,
     (bitLen >>> 32).land 255, (bitLen >>> 24).land 255, (bitLen >>> 16).land 255,
     (bitLen >>> 8).land 255, bitLen.land 255]

/-- Group bytes into 32-bit big-endian words. -/
def toWords : List Nat → List Nat
  | b0 :: b1 :: b2 :: b3 :: rest =>
      (((b0 <<< 24) ||| (b1 <<< 16)) ||| ((b2 <<< 8) ||| b3)) :: toWords rest
  | _ => []

/-- Extend the 16 block words to the 64-word message schedule. The first
    argument holds the words produced so far in reverse order; the counter
    is the number of extensions still to perform. -/
def extendWords (w : List Nat) : Nat → List Nat
  | 0 => w.reverse
  | i + 1 =>
    let w2 := w.get! 1
    let w7 := w.get! 6
    let w15 := w.get! 14
    let w16 := w.get! 15
    let nw := add32 (add32 (ssig1 w2) w7) (add32 (ssig0 w15) w16)
    extendWords (nw :: w) i

/-- The 64-word message schedule of one 16-word block. -/
def schedule (block : List Nat) : List Nat :=
  extendWords block.reverse 48

/-- One round of the SHA-256 compression function on state `[a,b,c,d,e,f,g,h]`. -/
def sha256Round (st : List Nat) (k w : Nat) : List Nat :=
  match st with
  | [a, b, c, d, e, f, g, h] =>
    let t1 := add32 (add32 h (bsig1 e)) (add32 (ch e f g) (add32 k w))
    let t2 := add32 (bsig0 a) (maj a b c)
    [add32 t1 t2, a, b, c, add32 d t1, e, f, g]
  | _ => st

/-- Fold the 64 rounds over the round constants and message schedule. -/
def sha256Rounds : List Nat → List Nat → List Nat → List Nat
  | st, k :: ks, w :: ws => sha256Rounds (sha256Round st k w) ks ws
  | st, _, _ => st

/-- Compress one 16-word block into the running hash state. -/
def compress (h : List Nat) (block : List Nat) : List Nat :=
  List.zipWith add32 h (sha256Rounds h K (schedule block))

/-- Split a byte list into 64-byte chunks (fuel-driven so that the kernel
    can evaluate it; the fuel `l.length` always suffices). -/
def chunks64Aux : Nat → List Nat → List (List Nat)
  | 0, _ => []
  | _ + 1, [] => []
  | fuel + 1, l => l.take 64 :: chunks64Aux fuel (l.drop 64)

def chunks64 (l : List Nat) : List (List Nat) :=
  chunks64Aux l.length l

/-- The SHA-256 state words of a byte message. -/
def sha256Words (msg : List Nat) : List Nat :=
  ((chunks64 (padMessage msg)).map toWords).foldl compress H0

/-- A lowercase hex digit. -/
def hexDigit (n : Nat) : Char :=
  if n < 10 then Char.ofNat (48 + n) else Char.ofNat (87 + n)

/-- Eight lowercase hex digits of a 32-bit word, most significant first. -/
def wordHex (w : Nat) : List Char :=
  [hexDigit ((w >>> 28).land 15), hexDigit ((w >>> 24).land 15),
   hexDigit ((w >>> 20).land 15), hexDigit ((w >>> 16).land 15),
   hexDigit ((w >>> 12).land 15), hexDigit ((w >>> 8).land 15),
   hexDigit ((w >>> 4).land 15), hexDigit (w.land 15)]

/-- Lowercase hex digest of the SHA-256 of a byte list, as
    `hashlib.sha256(bytes).hexdigest()`. -/
def sha256hex (msg : List Nat) : String :=
  String.mk ((sha256Words msg).foldr (fun w acc => wordHex w ++ acc) [])

/-- UTF-8 bytes of one character. -/
def charUtf8 (c : Char) : List Nat :=
  let n := c.toNat
  if n < 128 then [n]
  else if n < 2048 then [192 ||| (n >>> 6), 128 ||| (n.land 63)]
  else if n < 65536 then
    [224 ||| (n >>> 12), 128 ||| ((n >>> 6).land 63), 128 ||| (n.land 63)]
  else
    [240 ||| (n >>> 18), 128 ||| ((n >>> 12).land 63),
     128 ||| ((n >>> 6).land 63), 128 ||| (n.land 63)]

/-- UTF-8 encoding of a string, as Python's `str.encode()`. -/
def strBytes (s : String) : List Nat :=
  (s.data.map charUtf8).flatten

/-! ### Python `json` values -/

mutual
/-- JSON values as Python's `json` module produces and consumes them,
    with numbers restricted to integers (no payload in this development
    carries floats). -/
inductive Json where
  | null : Json
  | bool (b : Bool) : Json
  | int (i : Int) : Json
  | str (s : String) : Json
  | arr (items : JArr) : Json
  | obj (fields : JObj) : Json
deriving DecidableEq

/-- A JSON array. -/
inductive JArr where
  | nil : JArr
  | cons (head : Json) (tail : JArr) : JArr
deriving DecidableEq

/-- A JSON object: key/value fields in insertion order, as a Python dict. -/
inductive JObj where
  | nil : JObj
  | cons (key : String) (val : Json) (tail : JObj) : JObj
deriving DecidableEq
end

/-- The fields of an object as an association list. -/
def JObj.toList : JObj → List (String × Json)
  | .nil => []
  | .cons k v t => (k, v) :: toList t

/-- The keys of an object in insertion order. -/
def JObj.keys (o : JObj) : List String := o.toList.map Prod.fst

/-- First binding of a key, as Python dict lookup (dicts have unique keys). -/
def JObj.lookup (k : String) : JObj → Option Json
  | .nil => none
  | .cons k' v t => if k' = k then some v else lookup k t

/-- Code-point comparison of character lists, as Python compares `str`. -/
def lexLe : List Char → List Char → Bool
  | [], _ => true
  | _ :: _, [] => false
  | a :: as, b :: bs =>
    if a.toNat < b.toNat then true
    else if b.toNat < a.toNat then false
    else lexLe as bs

/-- `a <= b` on strings by code points. -/
def strLe (a b : String) : Bool := lexLe a.data b.data

/-- Insert a field into a key-sorted field list (insertion-sort step). -/
def JObj.insertPair (k : String) (v : Json) : JObj → JObj
  | .nil => .cons k v .nil
  | .cons k' v' t =>
    if strLe k k' then .cons k v (.cons k' v' t)
    else .cons k' v' (insertPair k v t)

/-- Sort an object's fields by key, as `sort_keys=True` orders one object. -/
def JObj.sortFields : JObj → JObj
  | .nil => .nil
  | .cons k v t => insertPair k v (sortFields t)

/-- The field order relation used by `sort_keys=True`. -/
def keyLe (p q : String × Json) : Prop := strLe p.1 q.1 = true

instance : DecidableRel keyLe := fun p q => by
  unfold keyLe; infer_instance

mutual
/-- Recursively sort every object's fields by key: the field order in which
    `json.dumps(..., sort_keys=True)` emits a value. -/
def canon : Json → Json
  | .null => .null
  | .bool b => .bool b
  | .int i => .int i
  | .str s => .str s
  | .arr a => .arr (canonArr a)
  | .obj o => .obj (JObj.sortFields (canonObj o))

def canonArr : JArr → JArr
  | .nil => .nil
  | .cons h t => .cons (canon h) (canonArr t)

def canonObj : JObj → JObj
  | .nil => .nil
  | .cons k v t => .cons k (canon v) (canonObj t)
end

/-- A run of `n` spaces. -/
def spaces (n : Nat) : String := String.mk (List.replicate n ' ')

/-- Four lowercase hex digits, as Python's `\uXXXX` escapes render them. -/
def hex4 (n : Nat) : List Char :=
  [hexDigit ((n >>> 12).land 15), hexDigit ((n >>> 8).land 15),
   hexDigit ((n >>> 4).land 15), hexDigit (n.land 15)]

/-- JSON string escaping with `ensure_ascii=True`: quote and backslash get
    backslash escapes, the named control escapes are used, every other
    character outside `0x20`–`0x7e` becomes `\uXXXX` (with surrogate pairs
    above `0xFFFF`). -/
def escChar (c : Char) : List Char :=
  let n := c.toNat
  if n = 34 then ['\\', '"']
  else if n = 92 then ['\\', '\\']
  else if n = 10 then ['\\', 'n']
  else if n = 13 then ['\\', 'r']
  else if n = 9 then ['\\', 't']
  else if n = 8 then ['\\', 'b']
  else if n = 12 then ['\\', 'f']
  else if 32 ≤ n && n ≤ 126 then [c]
  else if n < 65536 then '\\' :: 'u' :: hex4 n
  else
    let m := n - 65536
    ('\\' :: 'u' :: hex4 (55296 + (m >>> 10))) ++ ('\\' :: 'u' :: hex4 (56320 + m.land 1023))

/-- A JSON string literal for `s`. -/
def quoteStr (s : String) : String :=
  "\"" ++ String.mk ((s.data.map escChar).flatten) ++ "\""

/-- Decimal rendering of an integer, as Python's `repr` of an `int`. -/
def intRepr (i : Int) : String := toString i

mutual
/-- Serialize a canonical-form value at nesting level `lvl`, as
    `json.dumps(..., indent=2)` renders it (object fields are emitted in
    the order given, so this is applied to `canon` output). -/
def dumpVal : Json → Nat → String
  | .null, _ => "null"
  | .bool true, _ => "true"
  | .bool false, _ => "false"
  | .int i, _ => intRepr i
  | .str s, _ => quoteStr s
  | .arr .nil, _ => "[]"
  | .arr (.cons h t), lvl =>
      "[\n" ++ dumpArrItems (.cons h t) (lvl + 1) ++ "\n" ++ spaces (2 * lvl) ++ "]"
  | .obj .nil, _ => "\x7b\x7d"
  | .obj (.cons k v t), lvl =>
      "\x7b\n" ++ dumpObjItems (.cons k v t) (lvl + 1) ++ "\n" ++ spaces (2 * lvl) ++ "\x7d"

def dumpArrItems : JArr → Nat → String
  | .nil, _ => ""
  | .cons h .nil, lvl => spaces (2 * lvl) ++ dumpVal h lvl
  | .cons h (.cons h' t), lvl =>
      spaces (2 * lvl) ++ dumpVal h lvl ++ ",\n" ++ dumpArrItems (.cons h' t) lvl

def dumpObjItems : JObj → Nat → String
  | .nil, _ => ""
  | .cons k v .nil, lvl => spaces (2 * lvl) ++ quoteStr k ++ ": " ++ dumpVal v lvl
  | .cons k v (.cons k' v' t), lvl =>
      spaces (2 * lvl) ++ quoteStr k ++ ": " ++ dumpVal v lvl ++ ",\n" ++
        dumpObjItems (.cons k' v' t) lvl
end

/-- Python's `json.dumps(value, sort_keys=True, indent=2)`: every object's fields
    sorted by key, then rendered with two-space indentation. -/
def dumps (j : Json) : String := dumpVal (canon j) 0

mutual
/-- Python's `json.dumps(value)`: default separators, no sorting, no indentation. -/
def dumpsPlain : Json → String
  | .null => "null"
  | .bool true => "true"
  | .bool false => "false"
  | .int i => intRepr i
  | .str s => quoteStr s
  | .arr a => "[" ++ dumpsPlainArr a ++ "]"
  | .obj o => "\x7b" ++ dumpsPlainObj o ++ "\x7d"

def dumpsPlainArr : JArr → String
  | .nil => ""
  | .cons h .nil => dumpsPlain h
  | .cons h (.cons h' t) => dumpsPlain h ++ ", " ++ dumpsPlainArr (.cons h' t)

def dumpsPlainObj : JObj → String
  | .nil => ""
  | .cons k v .nil => quoteStr k ++ ": " ++ dumpsPlain v
  | .cons k v (.cons k' v' t) =>
      quoteStr k ++ ": " ++ dumpsPlain v ++ ", " ++ dumpsPlainObj (.cons k' v' t)
end

/-! ### A `json.loads` parser

Executable recursive-descent parser, fuel-driven for structural recursion.
Numbers are accepted only as integers, matching the integer-only `Json`
type; any other input (including floats) parses to `none`, which models the
`json.loads` exceptions caught by `verify_blockchain_integrity`. -/

/-- Skip JSON whitespace. -/
def skipWs : List Char → List Char
  | c :: t => if c = ' ' || c = '\t' || c = '\n' || c = '\r' then skipWs t else c :: t
  | [] => []

/-- Is the character an ASCII hex digit? -/
def isHexDigitChar (c : Char) : Bool :=
  (48 ≤ c.toNat && c.toNat ≤ 57) || (97 ≤ c.toNat && c.toNat ≤ 102) ||
    (65 ≤ c.toNat && c.toNat ≤ 70)

/-- Numeric value of a hex digit. -/
def hexVal (c : Char) : Nat :=
  if c.toNat ≥ 97 then c.toNat - 87
  else if c.toNat ≥ 65 then c.toNat - 55
  else c.toNat - 48

/-- Drop the first binding of a key. -/
def remField (k : String) : JObj → JObj
  | .nil => .nil
  | .cons k' v t => if k' = k then t else .cons k' v (remField k t)

/-- Add a parsed field in front of later fields, letting a later duplicate
    key overwrite this one's value while keeping this position, as Python
    builds a dict from the fields of a JSON object. -/
def mergeField (k : String) (v : Json) (rest : JObj) : JObj :=
  match rest.lookup k with
  | some v' => JObj.cons k v' (remField k rest)
  | none => JObj.cons k v rest

/-- Parse the body of a JSON string literal after the opening quote,
    returning the characters and the rest after the closing quote. -/
def parseStrBody : List Char → Option (List Char × List Char)
  | [] => none
  | '"' :: t => some ([], t)
  | '\\' :: e :: t =>
    match e with
    | '"' => (parseStrBody t).map (fun (s, r) => ('"' :: s, r))
    | '\\' => (parseStrBody t).map (fun (s, r) => ('\\' :: s, r))
    | '/' => (parseStrBody t).map (fun (s, r) => ('/' :: s, r))
    | 'b' => (parseStrBody t).map (fun (s, r) => (Char.ofNat 8 :: s, r))
    | 'f' => (parseStrBody t).map (fun (s, r) => (Char.ofNat 12 :: s, r))
    | 'n' => (parseStrBody t).map (fun (s, r) => ('\n' :: s, r))
    | 'r' => (parseStrBody t).map (fun (s, r) => (Char.ofNat 13 :: s, r))
    | 't' => (parseStrBody t).map (fun (s, r) => ('\t' :: s, r))
    | 'u' =>
      match t with
      | a :: b :: c :: d :: t' =>
        match isHexDigitChar a && isHexDigitChar b && isHexDigitChar c && isHexDigitChar d with
        | true =>
          let n := ((hexVal a <<< 12) ||| (hexVal b <<< 8)) ||| ((hexVal c <<< 4) ||| hexVal d)
          (parseStrBody t').map (fun (s, r) => (Char.ofNat n :: s, r))
        | false => none
      | _ => none
    | _ => none
  | c :: t => (parseStrBody t).map (fun (s, r) => (c :: s, r))

/-- Parse a run of decimal digits into an accumulator. -/
def parseDigits (acc : Nat) : List Char → Nat × List Char
  | c :: t => if c.isDigit then parseDigits (acc * 10 + (c.toNat - 48)) t else (acc, c :: t)
  | [] => (acc, [])

mutual
/-- Parse one JSON value. -/
def parseVal : Nat → List Char → Option (Json × List Char)
  | 0, _ => none
  | _ + 1, [] => none
  | fuel + 1, c :: t =>
    match c with
    | '"' => (parseStrBody t).map (fun (s, r) => (Json.str (String.mk s), r))
    | 't' => match t with
      | 'r' :: 'u' :: 'e' :: r => some (Json.bool true, r)
      | _ => none
    | 'f' => match t with
      | 'a' :: 'l' :: 's' :: 'e' :: r => some (Json.bool false, r)
      | _ => none
    | 'n' => match t with
      | 'u' :: 'l' :: 'l' :: r => some (Json.null, r)
      | _ => none
    | '[' =>
      match skipWs t with
      | ']' :: r => some (Json.arr .nil, r)
      | u => (parseArrItems fuel u).map (fun (a, r) => (Json.arr a, r))
    | '-' =>
      match t with
      | d :: t' =>
        if d.isDigit then
          let (n, r) := parseDigits (d.toNat - 48) t'
          some (Json.int (-(n : Int)), r)
        else none
      | [] => none
    | _ =>
      if c = Char.ofNat 123 then
        match skipWs t with
        | d :: r => if d = Char.ofNat 125 then some (Json.obj .nil, r)
                    else (parseObjItems fuel (d :: r)).map (fun (o, r') => (Json.obj o, r'))
        | [] => none
      else if c.isDigit then
        let (n, r) := parseDigits (c.toNat - 48) t
        some (Json.int (n : Int), r)
      else none

/-- Parse the comma-separated items of a non-empty array, including the
    closing bracket. -/
def parseArrItems : Nat → List Char → Option (JArr × List Char)
  | 0, _ => none
  | fuel + 1, cs =>
    match parseVal fuel (skipWs cs) with
    | none => none
    | some (v, r) =>
      match skipWs r with
      | ',' :: r' => (parseArrItems fuel r').map (fun (a, r'') => (JArr.cons v a, r''))
      | ']' :: r' => some (JArr.cons v .nil, r')
      | _ => none

/-- Parse the comma-separated fields of a non-empty object, including the
    closing brace. -/
def parseObjItems : Nat → List Char → Option (JObj × List Char)
  | 0, _ => none
  | fuel + 1, cs =>
    match skipWs cs with
    | '"' :: r =>
      match parseStrBody r with
      | none => none
      | some (kChars, r') =>
        let k := String.mk kChars
        match skipWs r' with
        | ':' :: r'' =>
          match parseVal fuel (skipWs r'') with
          | none => none
          | some (v, r3) =>
            match skipWs r3 with
            | ',' :: r4 =>
              (parseObjItems fuel r4).map (fun (o, r5) => (mergeField k v o, r5))
            | d :: r4 =>
              if d = Char.ofNat 125 then some (JObj.cons k v .nil, r4) else none
            | [] => none
        | _ => none
    | _ => none
end

/-- Python's `json.loads(s)`: parse one JSON document with nothing but whitespace
    after it. -/
def parseJson (s : String) : Option Json :=
  match parseVal (s.length + 1) (skipWs s.data) with
  | some (j, rest) => if skipWs rest = [] then some j else none
  | none => none

/-! ### The ledger data model of `utils/blockchain.py` -/

/-- The 64-character all-zero genesis digest, `'0' * 64`. -/
def zeros64 : String := String.mk (List.replicate 64 '0')

/-- The in-memory block dict before its `'hash'` key is assigned:
    `{'index': ..., 'timestamp': ..., 'data': ..., 'previous_hash': ...,
    'nonce': ...}`. -/
structure Block where
  index : Int
  timestamp : String
  data : Json
  previous_hash : String
  nonce : Int
deriving DecidableEq

/-- The block dict as a JSON value, with its five keys in the insertion
    order used by `create_genesis_block` and `add_order_to_blockchain`. -/
def blockJson (b : Block) : Json :=
  .obj (.cons "index" (.int b.index)
    (.cons "timestamp" (.str b.timestamp)
      (.cons "data" b.data
        (.cons "previous_hash" (.str b.previous_hash)
          (.cons "nonce" (.int b.nonce) .nil)))))

/-- Function `calculate_hash`: SHA-256 over
    `json.dumps(block, sort_keys=True, indent=2).encode()`, as a hex digest. -/
def calculate_hash (block : Json) : String :=
  sha256hex (strBytes (dumps block))

/-- A block dict after `block['hash']` has been assigned. -/
structure HashedBlock where
  block : Block
  hash : String
deriving DecidableEq

/-- The payload of the genesis block. -/
def genesisData : JObj :=
  .cons "message" (.str "Genesis Block - The Villain Food-App Blockchain")
    (.cons "order_id" (.int 0) .nil)

/-- Function `create_genesis_block` builds the index-0 block over `genesisData`,
    hashes it and (in `__init__`) appends it to the in-memory chain only. -/
def create_genesis_block (now : String) : HashedBlock :=
  let b : Block := ⟨0, now, .obj genesisData, zeros64, 0⟩
  ⟨b, calculate_hash (blockJson b)⟩

/-- The in-memory chain right after `VillainBlockchain()` is constructed:
    the genesis block and nothing else; no database row is written. -/
def initChain (now : String) : List HashedBlock :=
  [create_genesis_block now]

/-- One row of the `blockchain_records` table: columns `id` (autoincrement),
    `order_id`, `previous_hash`, `current_hash`, `block_data`, and
    `timestamp` (filled by its `DEFAULT CURRENT_TIMESTAMP`, never by the
    insert in `store_block_in_db`). -/
structure DbRow where
  id : Nat
  order_id : Json
  previous_hash : String
  current_hash : String
  block_data : String
  timestamp : String
deriving DecidableEq

/-- The `blockchain_records` table plus its autoincrement counter, rows in
    insertion (= id) order. -/
structure Db where
  rows : List DbRow
  nextId : Nat
deriving DecidableEq

/-- A freshly initialized store with no blocks. -/
def emptyDb : Db := ⟨[], 1⟩

/-- Function `get_latest_block`: `SELECT * FROM blockchain_records ORDER BY id DESC
    LIMIT 1`; `None` when the connection cannot be obtained or the table is
    empty. -/
def get_latest_block (conn : Option Db) : Option DbRow :=
  match conn with
  | some db => db.rows.getLast?
  | none => none

/-- Lookup `block['data'].get('order_id', 0)`: the stored data is always an object
    when reached from `add_order_to_blockchain`. -/
def dataGet (j : Json) (k : String) (dflt : Json) : Json :=
  match j with
  | .obj o => (o.lookup k).getD dflt
  | _ => dflt

/-- Function `store_block_in_db`: insert `(order_id, previous_hash, current_hash,
    block_data)` with `block_data = json.dumps(block['data'])`; the row's
    `timestamp` column takes the database clock `dbNow`; returns `False`
    (and writes nothing) when the connection cannot be obtained. -/
def store_block_in_db (conn : Option Db) (dbNow : String) (b : HashedBlock) :
    Bool × Option Db :=
  match conn with
  | none => (false, none)
  | some db =>
    let row : DbRow :=
      { id := db.nextId
        order_id := dataGet b.block.data "order_id" (.int 0)
        previous_hash := b.block.previous_hash
        current_hash := b.hash
        block_data := dumpsPlain b.block.data
        timestamp := dbNow }
    (true, some ⟨db.rows ++ [row], db.nextId + 1⟩)

/-- The test `hash_result[:difficulty] == '0' * difficulty`. -/
def hashMeetsDifficulty (h : String) (difficulty : Nat) : Bool :=
  h.data.take difficulty == List.replicate difficulty '0'

/-- Function `mine_block`: hash a copy of the block, incrementing the copy's nonce,
    until the digest has the required zero prefix; returns the winning
    digest. The Python loop is unbounded; `fuel` bounds the search here and
    `none` models not returning within it. -/
def mine_block (b : Block) (difficulty : Nat) (fuel : Nat) : Option String :=
  match fuel with
  | 0 => none
  | fuel + 1 =>
    let h := calculate_hash (blockJson b)
    if hashMeetsDifficulty h difficulty then some h
    else mine_block { b with nonce := b.nonce + 1 } difficulty fuel

/-- What one `add_order_to_blockchain` call leaves behind: the value it
    returns, the in-memory chain, and the store. -/
structure AppendResult where
  returned : Option HashedBlock
  chain : List HashedBlock
  db : Option Db
deriving DecidableEq

/-- Function `add_order_to_blockchain(order_data)`: read the tip for `previous_hash`
    and `index`, build the new block at nonce 0 with the wall-clock
    timestamp `now`, mine it at difficulty 2, store it (the boolean result
    of `store_block_in_db` is discarded), append it to the in-memory chain,
    and return it. -/
def add_order_to_blockchain (chain : List HashedBlock) (conn : Option Db)
    (order_data : JObj) (now dbNow : String) (fuel : Nat) : AppendResult :=
  let latest := get_latest_block conn
  let previous_hash :=
    match latest with
    | some r => r.current_hash
    | none => zeros64
  let idx : Int :=
    match latest with
    | some r => (r.id : Int) + 1
    | none => 1
  let nb : Block := ⟨idx, now, .obj order_data, previous_hash, 0⟩
  match mine_block nb 2 fuel with
  | none => ⟨none, chain, conn⟩
  | some h =>
    let hb : HashedBlock := ⟨nb, h⟩
    let stored := store_block_in_db conn dbNow hb
    ⟨some hb, chain ++ [hb], stored.2⟩

/-- One entry of the `integrity_report` built by
    `verify_blockchain_integrity`. -/
structure BlockStatus where
  block_id : Nat
  order_id : Json
  status : String
  issues : List String
deriving DecidableEq

/-- The per-row body of the verification loop: check the stored
    `previous_hash` against the running expectation, then re-parse
    `block_data` and recompute the hash of a block rebuilt from the row —
    with `index = id`, the row's own `timestamp` column, and `nonce = 0` —
    comparing it to the stored `current_hash`; a parse failure is reported
    as a tampered block, as the `except` branch does. -/
def integrityStep (prev : String) (row : DbRow) : BlockStatus :=
  let st0 : BlockStatus := ⟨row.id, row.order_id, "VALID", []⟩
  let st1 :=
    if row.previous_hash ≠ prev then
      { st0 with
        status := "TAMPERED"
        issues := st0.issues ++
          ["Previous hash mismatch. Expected: " ++ prev ++ ", Got: " ++ row.previous_hash] }
    else st0
  match parseJson row.block_data with
  | none =>
    { st1 with
      status := "TAMPERED"
      issues := st1.issues ++ ["Block data parsing error"] }
  | some bd =>
    let testBlock : Block := ⟨(row.id : Int), row.timestamp, bd, row.previous_hash, 0⟩
    let calculated := calculate_hash (blockJson testBlock)
    if calculated ≠ row.current_hash then
      { st1 with
        status := "TAMPERED"
        issues := st1.issues ++
          ["Hash mismatch. Expected: " ++ calculated ++ ", Got: " ++ row.current_hash] }
    else st1

/-- The verification loop over all rows in id order, threading
    `previous_hash = block['current_hash']` (the stored value) after every
    block regardless of its validity. -/
def integrityReport : List DbRow → String → List BlockStatus
  | [], _ => []
  | row :: rest, prev => integrityStep prev row :: integrityReport rest row.current_hash

/-- Function `verify_blockchain_integrity`: a failed connection is reported as a
    result, not an exception; otherwise scan every row and fail exactly
    when some block is marked TAMPERED. -/
def verify_blockchain_integrity (conn : Option Db) : Bool × String :=
  match conn with
  | none => (false, "Database connection failed")
  | some db =>
    let report := integrityReport db.rows zeros64
    let tampered := report.filter (fun s => s.status == "TAMPERED")
    if tampered.length != 0 then
      (false, "Blockchain integrity compromised. " ++ toString tampered.length ++
        " blocks tampered.")
    else
      (true, "Blockchain integrity verified successfully.")

/-! ### Concrete fixtures

Wall-clock strings in `str(datetime.now())` format, database clock strings
in SQLite `CURRENT_TIMESTAMP` format, and order payloads, used to run the
operations on explicit inputs. -/

/-- Wall clock at construction of the controller. -/
def genesisTime : String := "2025-01-01 09:00:00.000000"

/-- Order payload `{'order_id': 1, 'customer': 'Alice', 'total_amount': 23}`. -/
def payload1 : JObj :=
  .cons "order_id" (.int 1)
    (.cons "customer" (.str "Alice") (.cons "total_amount" (.int 23) .nil))

/-- Order payload `{'order_id': 2, 'customer': 'Bob', 'total_amount': 15}`. -/
def payload2 : JObj :=
  .cons "order_id" (.int 2)
    (.cons "customer" (.str "Bob") (.cons "total_amount" (.int 15) .nil))

/-- Order payload `{'order_id': 3, 'customer': 'Carol', 'total_amount': 8}`. -/
def payload3 : JObj :=
  .cons "order_id" (.int 3)
    (.cons "customer" (.str "Carol") (.cons "total_amount" (.int 8) .nil))

/-- Order payload `{'customer': 'Dave'}`, with no `'order_id'` key. -/
def payloadNoId : JObj := .cons "customer" (.str "Dave") .nil

/-- Wall clock when order 1 is appended. -/
def time1 : String := "2025-01-01 10:00:00.000076"

/-- Database clock when order 1's row is inserted. -/
def dbTime1 : String := "2025-01-01 10:00:01"

/-- Wall clock when order 2 is appended. -/
def time2 : String := "2025-01-01 10:00:02.000051"

/-- Database clock when order 2's row is inserted. -/
def dbTime2 : String := "2025-01-01 10:00:03"

/-- Wall clock when order 3 is appended. -/
def time3 : String := "2025-01-01 10:00:04.000895"

/-- Database clock when order 3's row is inserted. -/
def dbTime3 : String := "2025-01-01 10:00:05"

/-- Wall clock when the order with no id is appended. -/
def timeNoId : String := "2025-01-01 10:00:05.000106"

/-- Database clock when that row is inserted. -/
def dbTimeNoId : String := "2025-01-01 10:00:06"

/-! ### Concrete runs of the operations -/

/-- Appending order 1 to a fresh controller over an empty store. -/
def run1 : AppendResult :=
  add_order_to_blockchain (initChain genesisTime) (some emptyDb) payload1 time1 dbTime1 1

/-- The digest mined for order 1 (its nonce-0 hash already meets
    difficulty 2). -/
def hash1 : String :=
  "009f44e44dda6a970a5d44123ab78cd26abacd7935c76ef1af81a7ac00ac18ae"

/-- The in-memory block built for order 1. -/
def block1 : Block := ⟨1, time1, .obj payload1, zeros64, 0⟩

def hb1 : HashedBlock := ⟨block1, hash1⟩

/-- The row `store_block_in_db` writes for order 1. -/
def row1 : DbRow := ⟨1, .int 1, zeros64, hash1, dumpsPlain (.obj payload1), dbTime1⟩

/-- Appending order 2 on top of run 1. -/
def run2 : AppendResult :=
  add_order_to_blockchain run1.chain run1.db payload2 time2 dbTime2 1

/-- The digest mined for order 2. -/
def hash2 : String :=
  "00d8f047d5d11245bca404a92f709e509bc50396e58431e696111959386b873a"

/-- The in-memory block built for order 2, linked to order 1's digest. -/
def block2 : Block := ⟨2, time2, .obj payload2, hash1, 0⟩

def hb2 : HashedBlock := ⟨block2, hash2⟩

/-- The row `store_block_in_db` writes for order 2. -/
def row2 : DbRow := ⟨2, .int 2, hash1, hash2, dumpsPlain (.obj payload2), dbTime2⟩

/-- Appending order 3 (fuel 2: its nonce-0 hash misses difficulty 2 and its
    nonce-1 hash meets it). -/
def run3 : AppendResult :=
  add_order_to_blockchain (initChain genesisTime) (some emptyDb) payload3 time3 dbTime3 2

/-- The digest mined for order 3, won at nonce 1. -/
def hash3 : String :=
  "000feae44f2f35b1c392ca4dab98bfe47ff6362436b651d12cc4960ab55fd06d"

/-- The in-memory block built for order 3 (nonce still 0 after mining). -/
def block3 : Block := ⟨1, time3, .obj payload3, zeros64, 0⟩

/-- Appending the order that has no `'order_id'` key. -/
def runNoId : AppendResult :=
  add_order_to_blockchain (initChain genesisTime) (some emptyDb) payloadNoId timeNoId
    dbTimeNoId 1

/-- The digest mined for the order with no id. -/
def hashNoId : String :=
  "000e5f80409a33f00027621308a5f1a3a6b82b433daf1b6c45a8e518bd129860"

def blockNoId : Block := ⟨1, timeNoId, .obj payloadNoId, zeros64, 0⟩

/-- Appending order 1 while the store is unavailable (no connection). -/
def runNoConn : AppendResult :=
  add_order_to_blockchain (initChain genesisTime) none payload1 time1 dbTime1 1

/-- Payload 1 with its fields inserted in a different order. -/
def payload1Perm : JObj :=
  .cons "total_amount" (.int 23)
    (.cons "order_id" (.int 1) (.cons "customer" (.str "Alice") .nil))

/-- The hash `verify_blockchain_integrity` recomputes for order 1's fresh
    row: the row id as index, the row's own `timestamp` column (the database
    insert time — the block's creation timestamp is never persisted), and
    nonce 0 (the winning nonce is never persisted either). Value computed by
    the same pipeline in Python. -/
def recomputedHash1 : String :=
  "666e57ef9790b3d8f63d313f8517018e1dda5fe0a1bd83b0671c1e637197073b"

/-- The hash the verifier recomputes for order 1's row after its stored
    `block_data` is mutated to carry `total_amount = 99`. -/
def recomputedHash1Mutated : String :=
  "2e6e1b33815afc6957e4ca70d7b166e991d407eb0217897cd892ba25dfd8d4ca"

/-- The hash the verifier recomputes for order 2's untouched fresh row. -/
def recomputedHash2 : String :=
  "f366c625da6669ca9f3cdcbe1071022c8c76982e6ebe0ed52ab136e342f4fb38"

/-- Order 1's stored `block_data` after the payload's `total_amount` is
    mutated in place from 23 to 99 (the stored `current_hash` is left
    unchanged). -/
def mutatedData1 : String :=
  "\x7b\"order_id\": 1, \"customer\": \"Alice\", \"total_amount\": 99\x7d"

/-- The two-block store produced by the fresh appends of orders 1 and 2,
    with exactly block 1's `block_data` mutated afterwards. -/
def tamperedDb : Db := ⟨[{ row1 with block_data := mutatedData1 }, row2], 3⟩

/-! ### Sanity anchors

Concrete evaluations cross-checked byte-for-byte against CPython's `json`,
`hashlib`, and the repository pipeline run on the same inputs. -/

/-- Sanity anchor for the hash engine: the SHA-256 of `b"abc"`. -/
example :
    sha256hex (strBytes "abc") =
      "ba7816bf8f01cfea414140de5dae2223b00361a396177a9cb410ff61f20015ad" := by
  decide

/-- Sanity anchor for the canonical serializer, byte-for-byte against
    `json.dumps({'b': 1, 'a': {'y': [1, 'x'], 'x': {}}}, sort_keys=True,
    indent=2)`. -/
example :
    dumps (.obj (.cons "b" (.int 1) (.cons "a"
        (.obj (.cons "y" (.arr (.cons (.int 1) (.cons (.str "x") .nil)))
          (.cons "x" (.obj .nil) .nil)))
        .nil))) =
      "\x7b\n  \"a\": \x7b\n    \"x\": \x7b\x7d,\n    \"y\": [\n      1,\n      \"x\"\n    ]\n  \x7d,\n  \"b\": 1\n\x7d" := by
  decide

/-- Sanity anchor for the plain serializer, against
    `json.dumps({'order_id': 1, 'customer': 'Alice', 'total_amount': 23})`. -/
example :
    dumpsPlain (.obj payload1) =
      "\x7b\"order_id\": 1, \"customer\": \"Alice\", \"total_amount\": 23\x7d" := by
  decide

/-- Sanity anchor for the parser: `json.loads` inverts the stored
    serialization of payload 1. -/
example : parseJson (dumpsPlain (.obj payload1)) = some (.obj payload1) := by decide

/-- Sanity anchor for the whole hash pipeline against
    `hashlib.sha256(json.dumps(genesis_block, sort_keys=True, indent=2)
    .encode()).hexdigest()` computed by Python. -/
example :
    (create_genesis_block genesisTime).hash =
      "47b794c20cfb10f01daeb2cd1f245399b722c6cb6868c4c622ee88a20b944a34" := by
  decide

/-- Sanity anchors for the runs, against the same pipeline executed by
    Python over `utils/blockchain.py`'s definitions. -/
example : run1.returned = some hb1 := by decide

example : run1.db = some ⟨[row1], 2⟩ := by decide

example : run2.returned = some hb2 := by decide

example : run2.db = some ⟨[row1, row2], 3⟩ := by decide

/-! ### Ordering facts about the key comparison and `sort_keys` order

These support the determinism property of `calculate_hash`. -/

theorem lexLe_total : ∀ a b : List Char, lexLe a b = true ∨ lexLe b a = true := by
  intro a
  induction a with
  | nil => intro b; left; rfl
  | cons x xs ih =>
    intro b
    cases b with
    | nil => right; rfl
    | cons y ys =>
      by_cases h1 : x.toNat < y.toNat
      · left; simp [lexLe, h1]
      · by_cases h2 : y.toNat < x.toNat
        · right; simp [lexLe, h1, h2]
        · rcases ih ys with h | h
          · left; simp [lexLe, h1, h2, h]
          · right; simp [lexLe, h1, h2, h]

theorem lexLe_trans :
    ∀ a b c : List Char, lexLe a b = true → lexLe b c = true → lexLe a c = true := by
  intro a
  induction a with
  | nil => intro b c _ _; rfl
  | cons x xs ih =>
    intro b c hab hbc
    cases b with
    | nil => simp [lexLe] at hab
    | cons y ys =>
      cases c with
      | nil => simp [lexLe] at hbc
      | cons z zs =>
        simp only [lexLe] at hab hbc ⊢
        by_cases hxy : x.toNat < y.toNat
        · by_cases hyz : y.toNat < z.toNat
          · have : x.toNat < z.toNat := by omega
            simp [this]
          · by_cases hzy : z.toNat < y.toNat
            · simp [hyz, hzy] at hbc
            · have : x.toNat < z.toNat := by omega
              simp [this]
        · by_cases hyx : y.toNat < x.toNat
          · simp [hxy, hyx] at hab
          · by_cases hyz : y.toNat < z.toNat
            · have : x.toNat < z.toNat := by omega
              simp [this]
            · by_cases hzy : z.toNat < y.toNat
              · simp [hyz, hzy] at hbc
              · have h1 : ¬ x.toNat < z.toNat := by omega
                have h2 : ¬ z.toNat < x.toNat := by omega
                simp only [hxy, hyx, if_false, if_true] at hab
                simp only [hyz, hzy, if_false, if_true] at hbc
                simp [h1, h2]
                exact ih ys zs (by simpa using hab) (by simpa using hbc)

theorem char_toNat_inj : ∀ {a b : Char}, a.toNat = b.toNat → a = b := by
  intro a b h
  cases a with
  | mk va ha =>
    cases b with
    | mk vb hb =>
      simp only [Char.toNat] at h
      congr 1
      exact UInt32.ext h

theorem lexLe_antisymm :
    ∀ a b : List Char, lexLe a b = true → lexLe b a = true → a = b := by
  intro a
  induction a with
  | nil =>
    intro b _ hba
    cases b with
    | nil => rfl
    | cons y ys => simp [lexLe] at hba
  | cons x xs ih =>
    intro b hab hba
    cases b with
    | nil => simp [lexLe] at hab
    | cons y ys =>
      simp only [lexLe] at hab hba
      by_cases hxy : x.toNat < y.toNat
      · have hyx : ¬ y.toNat < x.toNat := by omega
        simp [hyx, hxy] at hba
      · by_cases hyx : y.toNat < x.toNat
        · simp [hxy, hyx] at hab
        · have : x = y := char_toNat_inj (by omega)
          subst this
          simp only [hxy, hyx, if_false] at hab hba
          rw [ih ys (by simpa using hab) (by simpa using hba)]

theorem strLe_total : ∀ a b : String, strLe a b = true ∨ strLe b a = true := by
  intro a b; exact lexLe_total a.data b.data

theorem strLe_trans :
    ∀ a b c : String, strLe a b = true → strLe b c = true → strLe a c = true := by
  intro a b c; exact lexLe_trans a.data b.data c.data

theorem strLe_antisymm : ∀ a b : String, strLe a b = true → strLe b a = true → a = b := by
  intro a b hab hba
  cases a with
  | mk da =>
    cases b with
    | mk db => exact congrArg String.mk (lexLe_antisymm da db hab hba)

theorem toList_insertPair (k : String) (v : Json) :
    ∀ (o : JObj), (JObj.insertPair k v o).toList = List.orderedInsert keyLe (k, v) o.toList
  | .nil => rfl
  | .cons k' v' t => by
    simp only [JObj.insertPair, JObj.toList, List.orderedInsert]
    by_cases h : strLe k k' = true
    · simp [h, keyLe, JObj.toList]
    · simp [h, keyLe, JObj.toList, toList_insertPair k v t]

theorem toList_sortFields :
    ∀ (o : JObj), (JObj.sortFields o).toList = List.insertionSort keyLe o.toList
  | .nil => rfl
  | .cons k v t => by
    simp [JObj.sortFields, JObj.toList, List.insertionSort, toList_insertPair,
      toList_sortFields t]

theorem toList_inj : ∀ (o₁ o₂ : JObj), o₁.toList = o₂.toList → o₁ = o₂
  | .nil, .nil, _ => rfl
  | .nil, .cons _ _ _, h => by simp [JObj.toList] at h
  | .cons _ _ _, .nil, h => by simp [JObj.toList] at h
  | .cons k v t, .cons k' v' t', h => by
    simp only [JObj.toList, List.cons.injEq, Prod.mk.injEq] at h
    obtain ⟨⟨h1, h2⟩, h3⟩ := h
    subst h1; subst h2
    rw [toList_inj t t' h3]

theorem toList_canonObj :
    ∀ (o : JObj), (canonObj o).toList = o.toList.map (fun p => (p.1, canon p.2))
  | .nil => rfl
  | .cons k v t => by simp [canonObj, JObj.toList, toList_canonObj t]

/-- Two sorted pairings that are permutations of each other with no
    duplicate key are equal. -/
theorem sorted_perm_nodupKeys_eq :
    ∀ {l₁ l₂ : List (String × Json)}, List.Perm l₁ l₂ → l₁.Sorted keyLe → l₂.Sorted keyLe →
      (l₁.map Prod.fst).Nodup → l₁ = l₂ := by
  intro l₁
  induction l₁ with
  | nil => intro l₂ hp _ _ _; exact hp.nil_eq
  | cons p t ih =>
    intro l₂ hp hs₁ hs₂ hn
    cases l₂ with
    | nil => exact absurd hp.symm.nil_eq (by simp)
    | cons q s =>
      have hpq : p = q := by
        have hpmem : p ∈ q :: s := hp.subset (List.mem_cons_self p t)
        rcases List.mem_cons.mp hpmem with h | hps
        · exact h
        · have hqmem : q ∈ p :: t := hp.symm.subset (List.mem_cons_self q s)
          rcases List.mem_cons.mp hqmem with h | hqt
          · exact h.symm
          · have h1 : keyLe p q := List.rel_of_sorted_cons hs₁ q hqt
            have h2 : keyLe q p := List.rel_of_sorted_cons hs₂ p hps
            have hkeys : p.1 = q.1 := strLe_antisymm _ _ h1 h2
            have : p.1 ∉ t.map Prod.fst := by
              simp only [List.map_cons, List.nodup_cons] at hn
              exact hn.1
            exact absurd (hkeys ▸ List.mem_map_of_mem Prod.fst hqt) this
      subst hpq
      have ht : List.Perm t s := hp.cons_inv
      have := ih ht (List.sorted_cons.mp hs₁).2 (List.sorted_cons.mp hs₂).2
        (by simp only [List.map_cons, List.nodup_cons] at hn; exact hn.2)
      rw [this]

theorem insertionSort_eq_of_perm {l₁ l₂ : List (String × Json)}
    (hp : List.Perm l₁ l₂) (hn : (l₁.map Prod.fst).Nodup) :
    List.insertionSort keyLe l₁ = List.insertionSort keyLe l₂ := by
  haveI : IsTotal (String × Json) keyLe := ⟨fun p q => strLe_total p.1 q.1⟩
  haveI : IsTrans (String × Json) keyLe := ⟨fun _ _ _ h1 h2 => strLe_trans _ _ _ h1 h2⟩
  apply sorted_perm_nodupKeys_eq
  · exact (List.perm_insertionSort keyLe l₁).trans (hp.trans (List.perm_insertionSort keyLe l₂).symm)
  · exact List.sorted_insertionSort keyLe l₁
  · exact List.sorted_insertionSort keyLe l₂
  · exact ((List.perm_insertionSort keyLe l₁).map Prod.fst).nodup_iff.mpr hn


/-! ### The claims -/

/-- C3: `calculate_hash` is deterministic in the logical content of the
    hashed record: two in-memory objects holding the same fields in any
    insertion orders, with no duplicate key, hash to the same hex digest,
    because `json.dumps(..., sort_keys=True)` serializes both to the same
    byte sequence. -/
theorem calculate_hash_key_order_independent (o₁ o₂ : JObj)
    (hperm : List.Perm o₁.toList o₂.toList)
    (hnodup : (o₁.toList.map Prod.fst).Nodup) :
    calculate_hash (.obj o₁) = calculate_hash (.obj o₂) := by
  have hsort : JObj.sortFields (canonObj o₁) = JObj.sortFields (canonObj o₂) := by
    apply toList_inj
    rw [toList_sortFields, toList_sortFields]
    apply insertionSort_eq_of_perm
    · rw [toList_canonObj, toList_canonObj]
      exact hperm.map _
    · rw [toList_canonObj]
      have hmap : (o₁.toList.map (fun p => (p.1, canon p.2))).map Prod.fst =
          o₁.toList.map Prod.fst := by
        simp [List.map_map, Function.comp]
      rw [hmap]
      exact hnodup
  have hcanon : canon (Json.obj o₁) = canon (Json.obj o₂) := by
    simp only [canon]
    rw [hsort]
  unfold calculate_hash dumps
  rw [hcanon]

/-- Witness for C3: the order-1 payload written with its three fields in two
    different insertion orders hashes identically. -/
theorem calculate_hash_key_order_independent_witness :
    calculate_hash (.obj payload1) = calculate_hash (.obj payload1Perm) :=
  calculate_hash_key_order_independent payload1 payload1Perm (by decide) (by decide)

/-- When `mine_block` returns a digest, that digest meets the difficulty and
    is the hash of the input block's content at some nonce reached from the
    starting nonce within the fuel. -/
theorem mine_block_spec :
    ∀ (fuel : Nat) (b : Block) (d : Nat) (h : String),
      mine_block b d fuel = some h →
      hashMeetsDifficulty h d = true ∧
      ∃ n : Int, b.nonce ≤ n ∧ n < b.nonce + (fuel : Int) ∧
        h = calculate_hash (blockJson { b with nonce := n }) := by
  intro fuel
  induction fuel with
  | zero => intro b d h hc; simp [mine_block] at hc
  | succ m ih =>
    intro b d h hc
    rw [mine_block] at hc
    by_cases hd : hashMeetsDifficulty (calculate_hash (blockJson b)) d = true
    · rw [if_pos hd] at hc
      have hh : calculate_hash (blockJson b) = h := by
        simpa using hc
      refine ⟨hh ▸ hd, b.nonce, le_refl _, by push_cast; omega, hh.symm⟩
    · rw [if_neg hd] at hc
      obtain ⟨hm, n, hlo, hhi, he⟩ := ih { b with nonce := b.nonce + 1 } d h hc
      have hlo' : b.nonce + 1 ≤ n := hlo
      have hhi' : n < b.nonce + 1 + (m : Int) := hhi
      refine ⟨hm, n, by omega, by push_cast; omega, he⟩

/-- C5: whenever `mine_block` returns a digest at difficulty `d`, the first
    `d` hex characters of that digest are all `'0'`. -/
theorem mined_digest_has_leading_zeros (b : Block) (d fuel : Nat) (h : String)
    (hm : mine_block b d fuel = some h) :
    h.data.take d = List.replicate d '0' := by
  have hz := (mine_block_spec fuel b d h hm).1
  unfold hashMeetsDifficulty at hz
  simpa using hz

/-- Witness for C5: the digest mined for order 1 at the default difficulty 2
    starts with two zero characters. -/
theorem mined_digest_has_leading_zeros_witness :
    hash1.data.take 2 = List.replicate 2 '0' :=
  mined_digest_has_leading_zeros block1 2 1 hash1 (by decide)

/-- C4 counterexample: appending order 3 mines the winning digest at
    nonce 1, but the returned (and persisted) block still carries nonce 0,
    whose hash is not the returned digest — so the block's nonce is not the
    nonce that produced the returned hash. -/
theorem mined_nonce_not_preserved_counterexample :
    run3.returned = some ⟨block3, hash3⟩ ∧
    block3.nonce = 0 ∧
    calculate_hash (blockJson block3) ≠ hash3 ∧
    calculate_hash (blockJson { block3 with nonce := 1 }) = hash3 := by
  decide

/-- C4 (amended): mining searches on a copy of the block, so
    `add_order_to_blockchain` always returns a block whose nonce is still 0
    while the returned digest is the hash of that block's content at the
    winning nonce found within the fuel. -/
theorem add_order_returns_nonce_zero_block :
    ∀ (chain : List HashedBlock) (conn : Option Db) (payload : JObj)
      (now dbNow : String) (fuel : Nat) (hb : HashedBlock),
      (add_order_to_blockchain chain conn payload now dbNow fuel).returned = some hb →
      hb.block.nonce = 0 ∧
      hashMeetsDifficulty hb.hash 2 = true ∧
      ∃ n : Int, 0 ≤ n ∧ n < (fuel : Int) ∧
        hb.hash = calculate_hash (blockJson { hb.block with nonce := n }) := by
  intro chain conn payload now dbNow fuel hb hret
  simp only [add_order_to_blockchain] at hret
  split at hret
  · exact absurd hret (by simp)
  · rename_i h hm
    have hhb : hb =
        ⟨⟨(match get_latest_block conn with | some r => (r.id : Int) + 1 | none => 1),
          now, .obj payload,
          (match get_latest_block conn with | some r => r.current_hash | none => zeros64),
          0⟩, h⟩ := by
      cases hret
      rfl
    obtain ⟨hz, n, hlo, hhi, he⟩ := mine_block_spec fuel _ 2 h hm
    have hlo' : (0 : Int) ≤ n := hlo
    have hhi' : n < 0 + (fuel : Int) := hhi
    subst hhb
    exact ⟨rfl, hz, n, hlo', by omega, he⟩

/-- Witness for C4 (amended): at the order-3 input the returned block keeps
    nonce 0 and its digest is the content hash at some nonce below the
    fuel 2. -/
theorem add_order_returns_nonce_zero_block_witness :
    (HashedBlock.mk block3 hash3).block.nonce = 0 ∧
    hashMeetsDifficulty (HashedBlock.mk block3 hash3).hash 2 = true ∧
    ∃ n : Int, 0 ≤ n ∧ n < ((2 : Nat) : Int) ∧
      (HashedBlock.mk block3 hash3).hash =
        calculate_hash (blockJson { (HashedBlock.mk block3 hash3).block with nonce := n }) :=
  add_order_returns_nonce_zero_block (initChain genesisTime) (some emptyDb) payload3
    time3 dbTime3 2 ⟨block3, hash3⟩ (by decide)

/-- C6: a successful append links the new block to the tip — its
    `previous_hash` is the most recently persisted row's `current_hash` (the
    genesis digest when the store is empty) and its `index` is that row's
    id + 1 (1 when empty); consequently a second successful append on the
    resulting store carries the first appended block's hash as its
    `previous_hash`. -/
theorem add_order_links_to_tip :
    ∀ (chain : List HashedBlock) (db : Db) (payload : JObj) (now dbNow : String)
      (fuel : Nat) (hb : HashedBlock),
      (add_order_to_blockchain chain (some db) payload now dbNow fuel).returned = some hb →
      (hb.block.previous_hash =
        match db.rows.getLast? with
        | some r => r.current_hash
        | none => zeros64) ∧
      (hb.block.index =
        match db.rows.getLast? with
        | some r => (r.id : Int) + 1
        | none => 1) ∧
      ∀ (chain₂ : List HashedBlock) (payload₂ : JObj) (now₂ dbNow₂ : String)
        (fuel₂ : Nat) (hb₂ : HashedBlock),
        (add_order_to_blockchain chain₂
            (add_order_to_blockchain chain (some db) payload now dbNow fuel).db
            payload₂ now₂ dbNow₂ fuel₂).returned = some hb₂ →
        hb₂.block.previous_hash = hb.hash := by
  intro chain db payload now dbNow fuel hb hret
  simp only [add_order_to_blockchain, get_latest_block] at hret
  split at hret
  · exact absurd hret (by simp)
  · rename_i h hm
    have hhb : hb =
        ⟨⟨(match db.rows.getLast? with | some r => (r.id : Int) + 1 | none => 1),
          now, .obj payload,
          (match db.rows.getLast? with | some r => r.current_hash | none => zeros64),
          0⟩, h⟩ := by
      cases hret
      rfl
    subst hhb
    refine ⟨rfl, rfl, ?_⟩
    intro chain₂ payload₂ now₂ dbNow₂ fuel₂ hb₂ hret₂
    simp only [add_order_to_blockchain, get_latest_block, hm, store_block_in_db,
      List.getLast?_concat] at hret₂
    split at hret₂
    · exact absurd hret₂ (by simp)
    · rename_i h₂ hm₂
      cases hret₂
      rfl

/-- Witness for C6: with the two concrete appends of orders 1 and 2 over an
    empty store, the second block's `previous_hash` is the first block's
    digest. -/
theorem add_order_links_to_tip_witness :
    hb2.block.previous_hash = hb1.hash :=
  (add_order_links_to_tip (initChain genesisTime) emptyDb payload1 time1 dbTime1 1 hb1
      (by decide)).2.2
    run1.chain payload2 time2 dbTime2 1 hb2 (by decide)

/-- Every per-row status carries the row's id, whatever the row contains. -/
theorem integrityStep_block_id (prev : String) (row : DbRow) :
    (integrityStep prev row).block_id = row.id := by
  simp only [integrityStep]
  repeat' split
  all_goals rfl

/-- C8: `verify_blockchain_integrity` is total — an unobtainable connection
    produces the failure result `(False, "Database connection failed")`
    rather than an exception, and the scan emits exactly one status per
    stored row (in order), so a broken or unparseable block never aborts the
    scan. -/
theorem verify_never_fatal_scans_all :
    verify_blockchain_integrity none = (false, "Database connection failed") ∧
    ∀ (rows : List DbRow) (prev : String),
      (integrityReport rows prev).map (fun s => s.block_id) = rows.map (fun r => r.id) := by
  refine ⟨rfl, ?_⟩
  intro rows
  induction rows with
  | nil => intro prev; rfl
  | cons r rest ih =>
    intro prev
    simp only [integrityReport, List.map_cons, integrityStep_block_id, ih]

/-- C9: constructing the controller only seeds the in-memory chain with the
    genesis block — nothing reaches the store — and verification over a
    store with no rows vacuously succeeds. -/
theorem genesis_unpersisted_empty_store_valid :
    (∀ now, initChain now = [create_genesis_block now]) ∧
    ∀ db : Db, db.rows = [] →
      verify_blockchain_integrity (some db) =
        (true, "Blockchain integrity verified successfully.") := by
  refine ⟨fun now => rfl, ?_⟩
  intro db hdb
  simp only [verify_blockchain_integrity, hdb]
  rfl

/-- Witness for C9: the freshly constructed chain is exactly the genesis
    block, and verification over the empty store succeeds. -/
theorem genesis_unpersisted_empty_store_valid_witness :
    initChain genesisTime = [create_genesis_block genesisTime] ∧
    verify_blockchain_integrity (some emptyDb) =
      (true, "Blockchain integrity verified successfully.") :=
  ⟨genesis_unpersisted_empty_store_valid.1 genesisTime,
   genesis_unpersisted_empty_store_valid.2 emptyDb rfl⟩

/-- C10: appending a payload that has no `'order_id'` key does not fail:
    the row is persisted with `order_id = 0` — the same order id carried by
    the in-memory genesis block's payload. -/
theorem append_without_order_id_stores_zero :
    ∀ (chain : List HashedBlock) (db : Db) (payload : JObj) (now dbNow : String)
      (fuel : Nat) (hb : HashedBlock),
      payload.lookup "order_id" = none →
      (add_order_to_blockchain chain (some db) payload now dbNow fuel).returned = some hb →
      (add_order_to_blockchain chain (some db) payload now dbNow fuel).db =
        some ⟨db.rows ++
          [⟨db.nextId, Json.int 0, hb.block.previous_hash, hb.hash,
            dumpsPlain hb.block.data, dbNow⟩], db.nextId + 1⟩ ∧
      genesisData.lookup "order_id" = some (Json.int 0) := by
  intro chain db payload now dbNow fuel hb hnk hret
  simp only [add_order_to_blockchain, get_latest_block] at hret ⊢
  split at hret
  · exact absurd hret (by simp)
  · rename_i h hm
    have hhb : hb =
        ⟨⟨(match db.rows.getLast? with | some r => (r.id : Int) + 1 | none => 1),
          now, .obj payload,
          (match db.rows.getLast? with | some r => r.current_hash | none => zeros64),
          0⟩, h⟩ := by
      cases hret
      rfl
    subst hhb
    refine ⟨?_, by decide⟩
    simp only [hm, store_block_in_db, dataGet, hnk, Option.getD]

/-- Witness for C10: the order with no `'order_id'` key is appended over an
    empty store; its row is stored with order id 0, as genesis carries. -/
theorem append_without_order_id_stores_zero_witness :
    runNoId.db =
      some ⟨emptyDb.rows ++
        [⟨emptyDb.nextId, Json.int 0, blockNoId.previous_hash, hashNoId,
          dumpsPlain blockNoId.data, dbTimeNoId⟩], emptyDb.nextId + 1⟩ ∧
    genesisData.lookup "order_id" = some (Json.int 0) :=
  append_without_order_id_stores_zero (initChain genesisTime) emptyDb payloadNoId
    timeNoId dbTimeNoId 1 ⟨blockNoId, hashNoId⟩ (by decide) (by decide)

/-- C1: a freshly appended one-block chain with no tampering is nevertheless
    reported as compromised — the recomputation inside the verifier uses the
    row's database timestamp and nonce 0, neither of which matches what was
    hashed at append time, so the untampered block is flagged TAMPERED with
    a hash mismatch and the overall result is `False`. -/
theorem fresh_chain_flagged_tampered :
    run1.db = some ⟨[row1], 2⟩ ∧
    integrityReport [row1] zeros64 =
      [⟨1, .int 1, "TAMPERED",
        ["Hash mismatch. Expected: " ++ recomputedHash1 ++ ", Got: " ++ hash1]⟩] ∧
    verify_blockchain_integrity run1.db =
      (false, "Blockchain integrity compromised. 1 blocks tampered.") := by
  decide

/-- C2: with no obtainable connection, `add_order_to_blockchain` still
    returns a mined block and appends it to the in-memory chain even though
    `store_block_in_db` reported failure (its `False` return value is
    discarded), so nothing was durably written — append does not fail
    closed. -/
theorem append_returns_block_without_store :
    runNoConn.returned = some hb1 ∧
    runNoConn.db = none ∧
    runNoConn.chain = initChain genesisTime ++ [hb1] ∧
    (store_block_in_db none dbTime1 hb1).1 = false := by
  decide

/-- C7: after mutating only block 1's stored payload, the verifier flags
    block 1 TAMPERED with a hash mismatch — but it also flags the untouched
    block 2 TAMPERED with a hash mismatch (the recomputation can never match
    any stored digest), so it does not flag *exactly* the mutated block.
    The link part of the claim does hold: block 2's issue list shows no
    previous-hash mismatch, because the running expectation is taken from
    block 1's stored `current_hash`. -/
theorem single_mutation_flags_both_blocks :
    run2.db = some ⟨[row1, row2], 3⟩ ∧
    integrityReport tamperedDb.rows zeros64 =
      [⟨1, .int 1, "TAMPERED",
        ["Hash mismatch. Expected: " ++ recomputedHash1Mutated ++ ", Got: " ++ hash1]⟩,
       ⟨2, .int 2, "TAMPERED",
        ["Hash mismatch. Expected: " ++ recomputedHash2 ++ ", Got: " ++ hash2]⟩] ∧
    verify_blockchain_integrity (some tamperedDb) =
      (false, "Blockchain integrity compromised. 2 blocks tampered.") := by
  decide

end Villain
